import Mathlib

/-!
Shallow embedding of the WiFi provisioning core of the heating-system
firmware (files `wifi_sta.py`, `wifi_credentials.py`, `wifi_dns.py`,
`wifi_reset.py`, `wifi_ap.py`), together with theorems settling the
spec claims about it.

External effects (the radio, the filesystem, the clock, sockets) are
modelled as explicit parameters: the outcome of each single connection
attempt is an oracle `Nat → Bool`, the credential file is a `Storage`
value, the reset line is a trace `Nat → Bool` sampled at the poll
instants, and byte strings are `List Nat`.
-/

namespace Heating

/-! ## Python exception model

Only the exception classes that the embedded code can raise or catch. -/

inductive PyExc
  | osError
  | valueError
  | keyError
  | attributeError
  deriving DecidableEq, Repr

/-! ## JSON values and the credential store (`wifi_credentials.py`)

`json.load` yields a Python value; we embed the JSON value universe.
The durable storage is either absent (open raises `OSError`),
unreadable (read raises `OSError`), malformed (`json.load` raises
`ValueError`), or holds a parsed JSON value. -/

inductive JValue
  | null
  | bool (b : Bool)
  | num (n : Int)
  | str (s : String)
  | arr (xs : List JValue)
  | obj (fields : List (String × JValue))

inductive Storage
  | absent
  | unreadable
  | malformed
  | holds (j : JValue)

/-- Python `repr`-free `str()` of the JSON values the code can meet.
Only the `str` case is ever reached with the values `save_credentials`
writes; container renderings are schematic. -/
def pyStr : JValue → String
  | .null => "None"
  | .bool true => "True"
  | .bool false => "False"
  | .num n => toString n
  | .str s => s
  | .arr _ => "[...]"
  | .obj _ => "{...}"

/-- Python truthiness of a JSON value (`if ssid:`). -/
def pyTruthy : JValue → Bool
  | .null => false
  | .bool b => b
  | .num n => n != 0
  | .str s => !s.isEmpty
  | .arr xs => !xs.isEmpty
  | .obj fs => !fs.isEmpty

/-- `data.get(key)` / `data.get(key, default)`: defined only on dicts;
on any non-dict value Python raises `AttributeError`.  Returns the
first binding of `key` (`none` when the key is missing). -/
def jGet : JValue → String → Except PyExc (Option JValue)
  | .obj fields, key =>
      .ok ((fields.find? (fun kv => kv.1 = key)).map Prod.snd)
  | _, _ => .error .attributeError

/-- Body of the `try:` block of `get_credentials`:
`some (ssid, password)` models the early `return` inside the `try`,
`none` models falling through the `if ssid:` test. -/
def getCredentialsBody (st : Storage) : Except PyExc (Option (String × String)) :=
  match st with
  | .absent => .error .osError
  | .unreadable => .error .osError
  | .malformed => .error .valueError
  | .holds data => do
      let ssidV ← jGet data "ssid"
      let passV ← jGet data "password"
      let ssid := ssidV.getD .null
      let password := passV.getD (.str "")
      if pyTruthy ssid then
        pure (some (pyStr ssid, pyStr password))
      else
        pure none

/-- `get_credentials()`: runs the body and catches exactly
`(OSError, ValueError, KeyError)`; any other exception escapes. -/
def get_credentials (st : Storage) :
    Except PyExc (Option String × Option String) :=
  match getCredentialsBody st with
  | .ok (some (s, p)) => .ok (some s, some p)
  | .ok none => .ok (none, none)
  | .error .osError => .ok (none, none)
  | .error .valueError => .ok (none, none)
  | .error .keyError => .ok (none, none)
  | .error e => .error e

/-- `save_credentials(ssid, password)`: the file afterwards parses to
the two-field JSON object the code dumps. -/
def save_credentials (ssid password : String) : Storage :=
  .holds (.obj [("ssid", .str ssid), ("password", .str password)])

/-! ## Bounded STA retry (`wifi_sta.py`, `try_connect_sta_with_retries`)

The outcome of `connect_sta()` at attempt number `i` (1-based, as in
the source's `range(1, MAX_RETRIES + 1)`) is the oracle `connect i`. -/

/-- The `for attempt in range(a, a + k)` loop body: return `True` on
the first successful attempt, `False` when attempts are exhausted. -/
def tryFrom (connect : Nat → Bool) : Nat → Nat → Bool
  | _, 0 => false
  | attempt, k + 1 =>
      if connect attempt then true else tryFrom connect (attempt + 1) k

/-- Number of `connect_sta()` invocations the same loop performs. -/
def callsFrom (connect : Nat → Bool) : Nat → Nat → Nat
  | _, 0 => 0
  | attempt, k + 1 =>
      if connect attempt then 1 else 1 + callsFrom connect (attempt + 1) k

/-- `try_connect_sta_with_retries()` with `MAX_RETRIES = maxRetries`. -/
def try_connect_sta_with_retries (connect : Nat → Bool) (maxRetries : Nat) : Bool :=
  tryFrom connect 1 maxRetries

/-- How many single attempts `try_connect_sta_with_retries` makes. -/
def try_connect_calls (connect : Nat → Bool) (maxRetries : Nat) : Nat :=
  callsFrom connect 1 maxRetries

/-! ## DNS redirector (`wifi_dns.py`, `create_response`)

Byte strings are `List Nat` (each entry one byte).  `create_response`
returns `none` when the Python code would raise (a non-numeric or
out-of-range part in `ip_addr`), `some bs` when it returns bytes. -/

/-- Python `ip_addr.split(".")` on the character list: split on `'.'`,
keeping empty parts (`"".split(".") == [""]`). -/
def splitDot : List Char → List (List Char)
  | [] => [[]]
  | c :: rest =>
      let r := splitDot rest
      if c = '.' then [] :: r
      else
        match r with
        | [] => [[c]]
        | g :: gs => (c :: g) :: gs

/-- Python `int(s)` on the all-digit strings that occur as dotted-quad
octets; `none` models the `ValueError` raised on anything else (the
signs or surrounding whitespace full `int` would also accept cannot
appear inside a dotted-quad address). -/
def decNat? (cs : List Char) : Option Nat :=
  if cs ≠ [] ∧ cs.all Char.isDigit then
    some (cs.foldl (fun acc c => 10 * acc + (c.toNat - 48)) 0)
  else none

/-- `bytes(<iterable of ints>)`: each value must lie in `0..255`,
otherwise `ValueError`. -/
def bytesOfParts : List (List Char) → Option (List Nat)
  | [] => some []
  | p :: ps =>
      match decNat? p with
      | none => none
      | some n => if n < 256 then (bytesOfParts ps).map (n :: ·) else none

/-- `bytes(map(int, ip_addr.split(".")))`. -/
def ipToBytes (ip_addr : String) : Option (List Nat) :=
  bytesOfParts (splitDot ip_addr.data)

/-- `create_response(data, ip_addr)`: header with copied ID, response
flags `0x8180`, one question, one answer; question section echoed;
answer record `C0 0C / type A / class IN / TTL 60 / RDLEN 4 / IP`. -/
def create_response (data : List Nat) (ip_addr : String) : Option (List Nat) :=
  if data.length < 12 then some []
  else
    (ipToBytes ip_addr).map fun octets =>
      data.take 2 ++ [0x81, 0x80, 0x00, 0x01, 0x00, 0x01, 0x00, 0x00, 0x00, 0x00]
        ++ data.drop 12
        ++ [0xC0, 0x0C, 0x00, 0x01, 0x00, 0x01, 0x00, 0x00, 0x00, 0x3C, 0x00, 0x04]
        ++ octets

/-! ## Reset detector (`wifi_reset.py`, `check_reset_button`)

The input line is a trace `active : Nat → Bool` giving, for each poll
instant, whether the line reads active (Python `btn.value() == 0`,
active-low).  Sample `0` is the initial `if btn.value() == 1: return`
check; samples `1, 2, …` are the successive `while` checks, one every
`utime.sleep(0.1)` tick.  With hold threshold `RESET_HOLD_SEC = 3` s
and 100 ms polls, the elapsed-time test `ticks_diff ≥ 3000` first
succeeds at the loop check after `thresholdPolls = 30` sleeps, i.e. at
sample `thresholdPolls + 1`. -/

inductive ResetOutcome
  | noAction
  | eraseAndRestart
  deriving DecidableEq, Repr

/-- The `while btn.value() == 0:` loop.  At sample `j` with
`remaining` polls left before the elapsed-time test succeeds:
inactive line → return; active with time up → fire erase+restart
(the call never returns); otherwise sleep and poll again. -/
def resetLoop (active : Nat → Bool) : Nat → Nat → ResetOutcome
  | j, 0 => if active j then .eraseAndRestart else .noAction
  | j, r + 1 => if active j then resetLoop active (j + 1) r else .noAction

/-- `check_reset_button()` with `thresholdPolls` sleeps needed before
the hold threshold elapses. -/
def check_reset_button (active : Nat → Bool) (thresholdPolls : Nat) : ResetOutcome :=
  if active 0 then resetLoop active 1 thresholdPolls else .noAction

/-- Effect of the call on the credential store: firing runs
`delete_credentials()` (file removed), returning leaves it alone. -/
def resetEffect : ResetOutcome → Storage → Storage
  | .noAction, st => st
  | .eraseAndRestart, _ => .absent

/-! ## URL decoding (`wifi_ap.py`, `_url_decode`)

The decoder first replaces every `'+'` with a space
(`s.replace("+", " ")`), then scans left to right: at a `'%'` with at
least two characters after it (`i + 2 < len(s)`), it evaluates
`chr(int(s[i+1:i+3], 16))` inside a `try`; on success the character is
emitted and the scan skips the escape, on `ValueError` (from `int` or
from `chr`) the `'%'` is emitted literally and the scan resumes at the
next character.  Exceptions other than `ValueError` would escape the
loop, so the embedding keeps an explicit exception channel. -/

/-- Python whitespace accepted around the digits by `int(s, 16)`. -/
def isPySpace (c : Char) : Bool :=
  c = ' ' || c = '\t' || c = '\n' || c = '\x0b' || c = '\x0c' || c = '\r'

def isHexDig (c : Char) : Bool :=
  c.isDigit || ('a' ≤ c && c ≤ 'f') || ('A' ≤ c && c ≤ 'F')

def hexVal (c : Char) : Nat :=
  if c.isDigit then c.toNat - 48
  else if 'a' ≤ c && c ≤ 'f' then c.toNat - 87
  else c.toNat - 55

/-- Python `int(t, 16)` for the exactly-two-character slices
`s[i+1:i+3]`: two hex digits, or a single hex digit with one
surrounding whitespace character or a leading sign.  Everything else
(`"0x"`, underscores, two signs, …) raises `ValueError` (`none`). -/
def pyIntHex2 (c1 c2 : Char) : Option Int :=
  if isHexDig c1 && isHexDig c2 then some ((16 * hexVal c1 + hexVal c2 : Nat) : Int)
  else if c1 = '+' && isHexDig c2 then some ((hexVal c2 : Nat) : Int)
  else if c1 = '-' && isHexDig c2 then some (-((hexVal c2 : Nat) : Int))
  else if isPySpace c1 && isHexDig c2 then some ((hexVal c2 : Nat) : Int)
  else if isHexDig c1 && isPySpace c2 then some ((hexVal c1 : Nat) : Int)
  else none

/-- `chr(int(t, 16))` — the expression inside the `try:`.  `chr`
raises `ValueError` outside `0 .. 0x10FFFF`; values reachable here are
at most `0xFF`, so `Char.ofNat` is exact on the success path. -/
def percentStep (c1 c2 : Char) : Except PyExc Char :=
  match pyIntHex2 c1 c2 with
  | none => .error .valueError
  | some n =>
      if 0 ≤ n ∧ n < 1114112 then .ok (Char.ofNat n.toNat)
      else .error .valueError

/-- `s.replace("+", " ")` for the single-character pattern. -/
def plusToSpace (cs : List Char) : List Char :=
  cs.map fun c => if c = '+' then ' ' else c

/-- The `while i < len(s):` scan of `_url_decode`, with the propagated
exception channel; `except ValueError` makes the escape literal.  The
escape branch is taken exactly when the current character is `'%'` and
at least two characters follow (`i + 2 < len(s)`). -/
def urlLoop : List Char → Except PyExc (List Char)
  | [] => .ok []
  | c :: rest =>
      if c = '%' then
        match rest with
        | c1 :: c2 :: rest2 =>
            match percentStep c1 c2 with
            | .ok ch => (urlLoop rest2).map (ch :: ·)
            | .error .valueError => (urlLoop (c1 :: c2 :: rest2)).map ('%' :: ·)
            | .error e => .error e
        | [] => (urlLoop []).map (c :: ·)
        | [c1] => (urlLoop [c1]).map (c :: ·)
      else (urlLoop rest).map (c :: ·)
termination_by cs => cs.length
decreasing_by all_goals (simp only [List.length_cons, List.length_nil]; omega)

def url_decode (s : String) : Except PyExc String :=
  if s.isEmpty then .ok s
  else (urlLoop (plusToSpace s.data)).map fun cs => ⟨cs⟩

/-- Valid escape as the claim reads it: the two characters form a
hexadecimal number Python's `int(·, 16)` accepts and `chr` of its
value exists. -/
def hexEscape? (c1 c2 : Char) : Option Char :=
  match percentStep c1 c2 with
  | .ok ch => some ch
  | .error _ => none

/-- Claim-side pure decoder: `'+'` to space, each `'%'` followed by a
valid two-character escape replaced by the escaped character, any
other `'%'` (invalid escape, or fewer than two characters left) copied
through literally. -/
def claimDecodeLoop : List Char → List Char
  | [] => []
  | c :: rest =>
      if c = '%' then
        match rest with
        | c1 :: c2 :: rest2 =>
            match hexEscape? c1 c2 with
            | some ch => ch :: claimDecodeLoop rest2
            | none => '%' :: claimDecodeLoop (c1 :: c2 :: rest2)
        | [] => c :: claimDecodeLoop []
        | [c1] => c :: claimDecodeLoop [c1]
      else c :: claimDecodeLoop rest
termination_by cs => cs.length
decreasing_by all_goals (simp only [List.length_cons, List.length_nil]; omega)

def claimUrlDecode (s : String) : String :=
  if s.isEmpty then s else ⟨claimDecodeLoop (plusToSpace s.data)⟩

/-! ## AP configuration loop (`wifi_ap.py`, `run_ap_config_loop`)

The `/save`-with-`ssid` branch of the event loop is the only place
the retry counter, the credential store and `connect_sta` are
touched.  Its state across submissions is the pair
(`retry_count`, stored credential record); one submission carries the
raw (still URL-encoded) `ssid` and `password` parameters and the
outcome the single `wifi_sta.connect_sta(user_ssid, user_pass)`
validation attempt would have.  The third result component records
whether `connect_sta` was invoked at all. -/

inductive ApResponse
  | success
  | failedTerminal
  | failedRetry
  | badRequest
  deriving DecidableEq, Repr

structure ApState where
  retry_count : Nat
  saved : Option (String × String)
  deriving DecidableEq, Repr

/-- The `/save`-with-`ssid` handler body after URL-decoding, from
`if user_ssid:` down to the three response sends. -/
def handleSave (maxRetries : Nat) (st : ApState) (user_ssid user_pass : String)
    (connectResult : Bool) : ApState × ApResponse × Bool :=
  if user_ssid ≠ "" then
    let rc := st.retry_count + 1
    if connectResult then
      ({ retry_count := rc, saved := some (user_ssid, user_pass) }, .success, true)
    else if maxRetries ≤ rc then
      ({ retry_count := 0, saved := st.saved }, .failedTerminal, true)
    else
      ({ retry_count := rc, saved := st.saved }, .failedRetry, true)
  else
    (st, .badRequest, false)

/-- The same handler including the `_url_decode` of both parameters. -/
def handleSaveRequest (maxRetries : Nat) (st : ApState)
    (rawSsid rawPass : String) (connectResult : Bool) :
    Except PyExc (ApState × ApResponse × Bool) := do
  let user_ssid ← url_decode rawSsid
  let user_pass ← url_decode rawPass
  pure (handleSave maxRetries st user_ssid user_pass connectResult)

/-- A run of the loop over a list of decoded submissions
`(ssid, password, connect outcome)`: the loop returns right after a
successful validation, otherwise it keeps serving. -/
def runSubs (maxRetries : Nat) : ApState → List (String × String × Bool) → ApState
  | st, [] => st
  | st, (ss, pw, cr) :: rest =>
      let r := handleSave maxRetries st ss pw cr
      match r.2.1 with
      | .success => r.1
      | _ => runSubs maxRetries r.1 rest

/-! ## Network scan (`wifi_ap.py`, `scan_networks`)

One raw scan entry carries the decoded `n[0]` — `none` when the SSID
bytes are empty or fail UTF-8 decoding, both of which the code maps to
`""` — and the RSSI `n[3]`.  Python `list.sort(key=…, reverse=True)`
is a stable descending sort, embedded as stable insertion sort. -/

def scanSsid : Option String → String
  | some s => s
  | none => ""

/-- The dedup loop: keep the first entry of each non-empty name. -/
def dedupScan : List (Option String × Int) → List String → List (String × Int)
  | [], _ => []
  | n :: rest, seen =>
      let ssid := scanSsid n.1
      if ssid ≠ "" ∧ ssid ∉ seen then
        (ssid, n.2) :: dedupScan rest (ssid :: seen)
      else dedupScan rest seen

/-- Stable insertion into a descending-by-RSSI list: keep passing `y`
only while its RSSI is strictly greater, so equal-RSSI entries keep
their original relative order. -/
def insertDesc (x : String × Int) : List (String × Int) → List (String × Int)
  | [] => [x]
  | y :: ys => if x.2 < y.2 then y :: insertDesc x ys else x :: y :: ys

def sortDesc : List (String × Int) → List (String × Int)
  | [] => []
  | x :: xs => insertDesc x (sortDesc xs)

/-- `scan_networks()` on the raw scan list. -/
def scan_networks (nets : List (Option String × Int)) : List (String × Int) :=
  sortDesc (dedupScan nets [])

lemma callsFrom_le (connect : Nat → Bool) :
    ∀ k a, callsFrom connect a k ≤ k := by
  intro k
  induction k with
  | zero => intro a; simp [callsFrom]
  | succ n ih =>
      intro a
      simp only [callsFrom]
      by_cases h : connect a
      · rw [if_pos h]; omega
      · rw [if_neg h]
        have := ih (a + 1)
        omega

lemma tryFrom_iff (connect : Nat → Bool) :
    ∀ k a, tryFrom connect a k = true ↔
      ∃ i, a ≤ i ∧ i < a + k ∧ connect i = true := by
  intro k
  induction k with
  | zero =>
      intro a
      simp only [tryFrom]
      constructor
      · intro h; exact absurd h (by simp)
      · rintro ⟨i, h1, h2, _⟩; omega
  | succ n ih =>
      intro a
      simp only [tryFrom]
      by_cases h : connect a
      · rw [if_pos h]
        constructor
        · intro _; exact ⟨a, le_refl a, by omega, h⟩
        · intro _; rfl
      · rw [if_neg h, ih (a + 1)]
        constructor
        · rintro ⟨i, h1, h2, h3⟩
          exact ⟨i, by omega, by omega, h3⟩
        · rintro ⟨i, h1, h2, h3⟩
          refine ⟨i, ?_, by omega, h3⟩
          rcases Nat.eq_or_lt_of_le h1 with rfl | hlt
          · rw [h3] at h; exact absurd rfl h
          · omega

lemma callsFrom_first_true (connect : Nat → Bool) :
    ∀ k a m, a ≤ m → m < a + k → connect m = true →
      (∀ j, a ≤ j → j < m → connect j = false) →
      callsFrom connect a k = m - a + 1 ∧ tryFrom connect a k = true := by
  intro k
  induction k with
  | zero => intro a m h1 h2; omega
  | succ n ih =>
      intro a m h1 h2 hm hfirst
      by_cases h : connect a
      · have hma : m = a := by
          by_contra hne
          have : connect a = false := hfirst a (le_refl a) (by omega)
          rw [h] at this; exact absurd this (by simp)
        subst hma
        constructor
        · simp [callsFrom, h]
        · simp [tryFrom, h]
      · have hma : a < m := by
          rcases Nat.eq_or_lt_of_le h1 with rfl | hlt
          · rw [hm] at h; exact absurd rfl h
          · exact hlt
        have hrec := ih (a + 1) m (by omega) (by omega) hm
          (fun j hj1 hj2 => hfirst j (by omega) hj2)
        constructor
        · simp only [callsFrom]
          rw [if_neg h, hrec.1]
          omega
        · simp only [tryFrom]
          rw [if_neg h]
          exact hrec.2

/-- C1: for `MAX_RETRIES = N ≥ 1`, `try_connect_sta_with_retries`
invokes the single-attempt connect at most `N` times; it returns
`true` exactly when some attempt among `1..N` succeeds, returning
immediately after the first success (exactly `k` invocations when
attempt `k` is the first success), and returns `false` when all `N`
attempts fail. -/
theorem tryConnect_bounded_retry (connect : Nat → Bool) (N : Nat)
    (_hN : 1 ≤ N) :
    try_connect_calls connect N ≤ N ∧
    (try_connect_sta_with_retries connect N = true ↔
      ∃ i, 1 ≤ i ∧ i ≤ N ∧ connect i = true) ∧
    ((∀ i, 1 ≤ i → i ≤ N → connect i = false) →
      try_connect_sta_with_retries connect N = false) ∧
    (∀ k, 1 ≤ k → k ≤ N → connect k = true →
      (∀ j, 1 ≤ j → j < k → connect j = false) →
      try_connect_sta_with_retries connect N = true ∧
      try_connect_calls connect N = k) := by
  refine ⟨callsFrom_le connect N 1, ?_, ?_, ?_⟩
  · rw [try_connect_sta_with_retries, tryFrom_iff]
    constructor
    · rintro ⟨i, h1, h2, h3⟩; exact ⟨i, h1, by omega, h3⟩
    · rintro ⟨i, h1, h2, h3⟩; exact ⟨i, h1, by omega, h3⟩
  · intro hall
    rw [try_connect_sta_with_retries]
    by_contra hne
    have htrue : tryFrom connect 1 N = true := by
      cases h : tryFrom connect 1 N
      · exact absurd h hne
      · rfl
    obtain ⟨i, h1, h2, h3⟩ := (tryFrom_iff connect N 1).mp htrue
    have := hall i h1 (by omega)
    rw [h3] at this; exact absurd this (by simp)
  · intro k hk1 hk2 hkc hfirst
    have := callsFrom_first_true connect N 1 k hk1 (by omega) hkc
      (fun j hj1 hj2 => hfirst j hj1 hj2)
    refine ⟨this.2, ?_⟩
    rw [try_connect_calls, this.1]; omega

/-- Witness for C1 at `N = 3` with an oracle succeeding at attempt 2:
two calls are made and the result is `true`. -/
theorem tryConnect_bounded_retry_witness :
    try_connect_sta_with_retries (fun i => i == 2) 3 = true ∧
    try_connect_calls (fun i => i == 2) 3 = 2 :=
  (tryConnect_bounded_retry (fun i => i == 2) 3 (by decide)).2.2.2
    2 (by decide) (by decide) (by decide)
    (by intro j h1 h2; interval_cases j; decide)

/-- C3: the claim fails on the code.  A credential file whose content
parses but is not a JSON object — here the JSON array `[1, 2]` — makes
`data.get("ssid")` raise `AttributeError`, which the handler
`except (OSError, ValueError, KeyError)` does not catch, so the
exception escapes to the caller instead of yielding `(None, None)`. -/
theorem getCredentials_nondict_raises :
    get_credentials (.holds (.arr [.num 1, .num 2])) =
      .error .attributeError := rfl

/-- C4: round-trip — after `save_credentials ssid password` with a
non-empty `ssid`, `get_credentials` returns exactly
`(ssid, password)` (and raises nothing). -/
theorem credentials_roundtrip (ssid password : String) (h : ssid ≠ "") :
    get_credentials (save_credentials ssid password) =
      .ok (some ssid, some password) := by
  have hne : ssid.isEmpty = false := by
    cases he : ssid.isEmpty
    · rfl
    · exact absurd ((String.isEmpty_iff ssid).mp he) h
  simp [get_credentials, getCredentialsBody, save_credentials, jGet,
    pyTruthy, pyStr, List.find?, hne, Option.getD, Except.bind, bind, pure,
    Except.pure]

/-- Witness for C4 at the spec's scenario record. -/
theorem credentials_roundtrip_witness :
    get_credentials (save_credentials "HomeNet" "secret123") =
      .ok (some "HomeNet", some "secret123") :=
  credentials_roundtrip "HomeNet" "secret123" (by decide)

/-- C5: for a query of length ≥ 12 and a dotted-quad address
`s1.s2.s3.s4` whose octets are `o1 o2 o3 o4 < 256`, `create_response`
returns a non-empty byte string that copies the query's two-byte
transaction ID, sets flags `0x8180`, declares one question and one
answer, echoes the query from offset 12 verbatim, and ends with a
type-A, TTL-60 answer whose four address bytes are the octets. -/
theorem create_response_valid (data : List Nat) (ip : String)
    (s1 s2 s3 s4 : List Char) (o1 o2 o3 o4 : Nat)
    (hlen : 12 ≤ data.length)
    (hsplit : splitDot ip.data = [s1, s2, s3, s4])
    (h1 : decNat? s1 = some o1) (ho1 : o1 < 256)
    (h2 : decNat? s2 = some o2) (ho2 : o2 < 256)
    (h3 : decNat? s3 = some o3) (ho3 : o3 < 256)
    (h4 : decNat? s4 = some o4) (ho4 : o4 < 256) :
    ∃ resp, create_response data ip = some resp ∧
      resp ≠ [] ∧
      resp.take 2 = data.take 2 ∧
      resp = data.take 2 ++ [0x81, 0x80, 0x00, 0x01, 0x00, 0x01, 0x00, 0x00, 0x00, 0x00]
        ++ data.drop 12
        ++ [0xC0, 0x0C, 0x00, 0x01, 0x00, 0x01, 0x00, 0x00, 0x00, 60, 0x00, 0x04]
        ++ [o1, o2, o3, o4] := by
  have hip : ipToBytes ip = some [o1, o2, o3, o4] := by
    rw [ipToBytes, hsplit]
    simp [bytesOfParts, h1, h2, h3, h4, ho1, ho2, ho3, ho4]
  have hcond : ¬ data.length < 12 := by omega
  refine ⟨_, by rw [create_response, if_neg hcond, hip]; rfl, ?_, ?_, rfl⟩
  · intro hnil
    have := congrArg List.length hnil
    simp at this
  · have htk : (data.take 2).length = 2 := by
      rw [List.length_take]; omega
    rw [List.append_assoc, List.append_assoc, List.append_assoc,
      List.take_append_of_le_length (by omega), List.take_take]
    simp

/-- Witness for C5: a 12-byte query and the AP address `192.168.4.1`. -/
theorem create_response_valid_witness :
    ∃ resp,
      create_response [0, 1, 2, 3, 4, 5, 6, 7, 8, 9, 10, 11] "192.168.4.1"
        = some resp ∧
      resp ≠ [] ∧
      resp.take 2 = [0, 1, 2, 3, 4, 5, 6, 7, 8, 9, 10, 11].take 2 ∧
      resp = [0, 1] ++ [0x81, 0x80, 0x00, 0x01, 0x00, 0x01, 0x00, 0x00, 0x00, 0x00]
        ++ [] ++ [0xC0, 0x0C, 0x00, 0x01, 0x00, 0x01, 0x00, 0x00, 0x00, 60, 0x00, 0x04]
        ++ [192, 168, 4, 1] :=
  create_response_valid [0, 1, 2, 3, 4, 5, 6, 7, 8, 9, 10, 11] "192.168.4.1"
    ['1', '9', '2'] ['1', '6', '8'] ['4'] ['1'] 192 168 4 1 (by decide) (by decide)
    (by decide) (by decide) (by decide) (by decide)
    (by decide) (by decide) (by decide) (by decide)

/-- C6: a query shorter than 12 bytes yields the empty byte string
(the caller then sends no response). -/
theorem create_response_short (data : List Nat) (ip : String)
    (h : data.length < 12) : create_response data ip = some [] := by
  rw [create_response, if_pos h]

/-- Witness for C6: an 11-byte truncated query. -/
theorem create_response_short_witness :
    create_response [0, 1, 2, 3, 4, 5, 6, 7, 8, 9, 10] "192.168.4.1" = some [] :=
  create_response_short [0, 1, 2, 3, 4, 5, 6, 7, 8, 9, 10] "192.168.4.1" (by decide)

lemma resetLoop_fire_iff (active : Nat → Bool) :
    ∀ r j, resetLoop active j r = .eraseAndRestart ↔
      ∀ i, j ≤ i → i ≤ j + r → active i = true := by
  intro r
  induction r with
  | zero =>
      intro j
      simp only [resetLoop]
      by_cases h : active j
      · rw [if_pos h]
        constructor
        · intro _ i h1 h2
          have : i = j := by omega
          rw [this]; exact h
        · intro _; rfl
      · rw [if_neg h]
        constructor
        · intro hcontra; exact absurd hcontra (by simp)
        · intro hall
          exact absurd (hall j (le_refl j) (by omega)) h
  | succ n ih =>
      intro j
      simp only [resetLoop]
      by_cases h : active j
      · rw [if_pos h, ih (j + 1)]
        constructor
        · intro hall i h1 h2
          rcases Nat.eq_or_lt_of_le h1 with rfl | hlt
          · exact h
          · exact hall i (by omega) (by omega)
        · intro hall i h1 h2
          exact hall i (by omega) (by omega)
      · rw [if_neg h]
        constructor
        · intro hcontra; exact absurd hcontra (by simp)
        · intro hall
          exact absurd (hall j (le_refl j) (by omega)) h

lemma resetLoop_or (active : Nat → Bool) :
    ∀ r j, resetLoop active j r = .eraseAndRestart ∨
      resetLoop active j r = .noAction := by
  intro r
  induction r with
  | zero =>
      intro j
      simp only [resetLoop]
      by_cases h : active j
      · rw [if_pos h]; exact Or.inl rfl
      · rw [if_neg h]; exact Or.inr rfl
  | succ n ih =>
      intro j
      simp only [resetLoop]
      by_cases h : active j
      · rw [if_pos h]; exact ih (j + 1)
      · rw [if_neg h]; exact Or.inr rfl

/-- C7: `check_reset_button` fires erase+restart exactly when the
reset line is active at the initial sample and at every poll through
the one where the hold threshold elapses (samples `0 .. N + 1` for
`N = thresholdPolls`); firing erases the stored record, while any
inactive sample in that window makes the call return with the
credential store untouched. -/
theorem reset_button_boundary (active : Nat → Bool) (N : Nat) (creds : Storage) :
    (check_reset_button active N = .eraseAndRestart ↔
      ∀ j, j ≤ N + 1 → active j = true) ∧
    ((∀ j, j ≤ N + 1 → active j = true) →
      resetEffect (check_reset_button active N) creds = .absent) ∧
    ((∃ j, j ≤ N + 1 ∧ active j = false) →
      check_reset_button active N = .noAction ∧
      resetEffect (check_reset_button active N) creds = creds) := by
  have hiff : check_reset_button active N = .eraseAndRestart ↔
      ∀ j, j ≤ N + 1 → active j = true := by
    rw [check_reset_button]
    by_cases h : active 0
    · rw [if_pos h, resetLoop_fire_iff]
      constructor
      · intro hall j h1
        rcases Nat.eq_zero_or_pos j with rfl | hpos
        · exact h
        · exact hall j (by omega) (by omega)
      · intro hall i h1 h2
        exact hall i (by omega)
    · rw [if_neg h]
      constructor
      · intro hcontra; exact absurd hcontra (by simp)
      · intro hall
        exact absurd (hall 0 (by omega)) h
  refine ⟨hiff, ?_, ?_⟩
  · intro hall
    rw [hiff.mpr hall]
    rfl
  · rintro ⟨j, h1, h2⟩
    have hno : check_reset_button active N = .noAction := by
      have : check_reset_button active N = .eraseAndRestart ∨
          check_reset_button active N = .noAction := by
        rw [check_reset_button]
        by_cases h : active 0
        · rw [if_pos h]; exact resetLoop_or active N 1
        · rw [if_neg h]; exact Or.inr rfl
      rcases this with hfire | hno
      · have := hiff.mp hfire j h1
        rw [h2] at this
        exact absurd this (by simp)
      · exact hno
    rw [hno]
    exact ⟨rfl, rfl⟩

/-- Witness for C7: a line held active for one poll too few (released
at sample 31 with a 30-poll threshold) leaves stored credentials in
place; vacuum case with the line never pressed also shown. -/
theorem reset_button_boundary_witness :
    check_reset_button (fun j => j < 31) 30 = .noAction ∧
    resetEffect (check_reset_button (fun j => j < 31) 30)
      (save_credentials "HomeNet" "secret123")
      = save_credentials "HomeNet" "secret123" :=
  (reset_button_boundary (fun j => j < 31) 30
      (save_credentials "HomeNet" "secret123")).2.2
    ⟨31, by decide, by decide⟩

/-- `percentStep` raises nothing but `ValueError`. -/
lemma percentStep_error_eq (c1 c2 : Char) (e : PyExc)
    (h : percentStep c1 c2 = .error e) : e = .valueError := by
  rw [percentStep] at h
  split at h
  · cases h; rfl
  · split at h
    · cases h
    · cases h; rfl

lemma urlLoop_eq_claim : ∀ n cs, cs.length ≤ n →
    urlLoop cs = .ok (claimDecodeLoop cs) := by
  intro n
  induction n with
  | zero =>
      intro cs h
      match cs with
      | [] => simp [urlLoop, claimDecodeLoop]
      | c :: rest => simp only [List.length_cons] at h; omega
  | succ n ih =>
      intro cs h
      match cs with
      | [] => simp [urlLoop, claimDecodeLoop]
      | c :: rest =>
          simp only [List.length_cons] at h
          match rest with
          | [] => simp [urlLoop, claimDecodeLoop, Except.map]
          | [c1] => simp [urlLoop, claimDecodeLoop, Except.map]
          | c1 :: c2 :: rest2 =>
              simp only [List.length_cons] at h
              simp only [urlLoop, claimDecodeLoop]
              by_cases hc : c = '%'
              · rw [if_pos hc, if_pos hc]
                simp only [hexEscape?]
                cases hps : percentStep c1 c2 with
                | ok ch =>
                    rw [ih rest2 (by omega)]
                    rfl
                | error e =>
                    have he := percentStep_error_eq c1 c2 e hps
                    subst he
                    rw [ih (c1 :: c2 :: rest2) (by simp; omega)]
                    rfl
              · rw [if_neg hc, if_neg hc,
                  ih (c1 :: c2 :: rest2) (by simp; omega)]
                rfl

/-- C10: `_url_decode` is total — for every input it returns `.ok` of
the claim-side pure decoder's result, never an exception: every `'+'`
becomes a space, every `'%'` followed by a valid two-character
hexadecimal escape becomes the escaped character, and a `'%'` whose
escape is invalid or truncated at the end of the string is copied
through literally. -/
theorem url_decode_total (s : String) :
    url_decode s = .ok (claimUrlDecode s) := by
  rw [url_decode, claimUrlDecode]
  by_cases h : s.isEmpty
  · rw [if_pos h, if_pos h]
  · rw [if_neg h, if_neg h,
      urlLoop_eq_claim (plusToSpace s.data).length _ (le_refl _)]
    rfl

lemma handleSave_empty (mr : Nat) (st : ApState) (pw : String) (cr : Bool) :
    handleSave mr st "" pw cr = (st, .badRequest, false) := by
  simp [handleSave]

lemma handleSave_success (mr : Nat) (st : ApState) (ss pw : String)
    (hss : ss ≠ "") :
    handleSave mr st ss pw true =
      ({ retry_count := st.retry_count + 1, saved := some (ss, pw) },
        .success, true) := by
  simp [handleSave, hss]

lemma handleSave_fail_terminal (mr : Nat) (st : ApState) (ss pw : String)
    (hss : ss ≠ "") (hc : mr ≤ st.retry_count + 1) :
    handleSave mr st ss pw false =
      ({ retry_count := 0, saved := st.saved }, .failedTerminal, true) := by
  simp [handleSave, hss, hc]

lemma handleSave_fail_retry (mr : Nat) (st : ApState) (ss pw : String)
    (hss : ss ≠ "") (hc : ¬ mr ≤ st.retry_count + 1) :
    handleSave mr st ss pw false =
      ({ retry_count := st.retry_count + 1, saved := st.saved },
        .failedRetry, true) := by
  simp [handleSave, hss, hc]

lemma runSubs_count_le (maxRetries : Nat) (hmax : 1 ≤ maxRetries) :
    ∀ subs st, st.retry_count < maxRetries →
      (runSubs maxRetries st subs).retry_count ≤ maxRetries := by
  intro subs
  induction subs with
  | nil => intro st h; simpa [runSubs] using Nat.le_of_lt h
  | cons sub rest ih =>
      intro st h
      obtain ⟨ss, pw, cr⟩ := sub
      rw [runSubs]
      by_cases hss : ss = ""
      · subst hss
        rw [handleSave_empty]
        exact ih st h
      · by_cases hcr : cr = true
        · subst hcr
          rw [handleSave_success maxRetries st ss pw hss]
          show st.retry_count + 1 ≤ maxRetries
          omega
        · have hcr' : cr = false := by
            cases cr
            · rfl
            · exact absurd rfl hcr
          subst hcr'
          by_cases hterm : maxRetries ≤ st.retry_count + 1
          · rw [handleSave_fail_terminal maxRetries st ss pw hss hterm]
            exact ih _ (by show (0 : Nat) < maxRetries; omega)
          · rw [handleSave_fail_retry maxRetries st ss pw hss hterm]
            exact ih _ (by
              show st.retry_count + 1 < maxRetries
              omega)

lemma runSubs_saved_frame (maxRetries : Nat) :
    ∀ subs st, (∀ x ∈ subs, x.2.2 = false) →
      (runSubs maxRetries st subs).saved = st.saved := by
  intro subs
  induction subs with
  | nil => intro st _; rw [runSubs]
  | cons sub rest ih =>
      intro st hall
      obtain ⟨ss, pw, cr⟩ := sub
      have hcr : cr = false := hall (ss, pw, cr) (by simp)
      subst hcr
      have hrest : ∀ x ∈ rest, x.2.2 = false :=
        fun x hx => hall x (by simp [hx])
      rw [runSubs]
      by_cases hss : ss = ""
      · subst hss
        rw [handleSave_empty]
        exact ih st hrest
      · by_cases hterm : maxRetries ≤ st.retry_count + 1
        · rw [handleSave_fail_terminal maxRetries st ss pw hss hterm]
          exact ih _ hrest
        · rw [handleSave_fail_retry maxRetries st ss pw hss hterm]
          exact ih _ hrest

/-- C2: with `MAX_RETRIES ≥ 1`, over any run starting from the fresh
state (counter `0`, nothing stored): the counter never exceeds
`MAX_RETRIES`; a failed validation that brings the counter to
`MAX_RETRIES` resets it to `0` and returns the terminal
"failed after N attempts" page; any other failed validation returns
the "failed, retrying" page and leaves the counter incremented; and a
run whose validation attempts all fail never writes a credential
record. -/
theorem ap_retry_invariants (maxRetries : Nat) (hmax : 1 ≤ maxRetries) :
    (∀ subs, (runSubs maxRetries ⟨0, none⟩ subs).retry_count ≤ maxRetries) ∧
    (∀ st ssid pw, ssid ≠ "" → st.retry_count + 1 = maxRetries →
      handleSave maxRetries st ssid pw false =
        (⟨0, st.saved⟩, .failedTerminal, true)) ∧
    (∀ st ssid pw, ssid ≠ "" → st.retry_count + 1 < maxRetries →
      handleSave maxRetries st ssid pw false =
        (⟨st.retry_count + 1, st.saved⟩, .failedRetry, true)) ∧
    (∀ subs, (∀ x ∈ subs, x.2.2 = false) →
      (runSubs maxRetries ⟨0, none⟩ subs).saved = none) := by
  refine ⟨?_, ?_, ?_, ?_⟩
  · intro subs
    exact runSubs_count_le maxRetries hmax subs ⟨0, none⟩ (by simpa using hmax)
  · intro st ssid pw hss hcount
    exact handleSave_fail_terminal maxRetries st ssid pw hss
      (le_of_eq hcount.symm)
  · intro st ssid pw hss hcount
    exact handleSave_fail_retry maxRetries st ssid pw hss (by omega)
  · intro subs hall
    exact runSubs_saved_frame maxRetries subs ⟨0, none⟩ hall

/-- Witness for C2 at `MAX_RETRIES = 3`, the spec's
wrong-password-three-times scenario: first two failures give the
retrying page, the third gives the terminal page with the counter back
at `0`, the counter never exceeds `3`, and nothing is stored. -/
theorem ap_retry_invariants_witness :
    (runSubs 3 ⟨0, none⟩
      [("HomeNet", "wrong", false), ("HomeNet", "wrong", false),
        ("HomeNet", "wrong", false)]).retry_count ≤ 3 ∧
    handleSave 3 ⟨2, none⟩ "HomeNet" "wrong" false =
      (⟨0, none⟩, .failedTerminal, true) ∧
    handleSave 3 ⟨0, none⟩ "HomeNet" "wrong" false =
      (⟨1, none⟩, .failedRetry, true) ∧
    (runSubs 3 ⟨0, none⟩
      [("HomeNet", "wrong", false), ("HomeNet", "wrong", false),
        ("HomeNet", "wrong", false)]).saved = none :=
  ⟨(ap_retry_invariants 3 (by decide)).1 _,
    (ap_retry_invariants 3 (by decide)).2.1 ⟨2, none⟩ "HomeNet" "wrong"
      (by decide) rfl,
    (ap_retry_invariants 3 (by decide)).2.2.1 ⟨0, none⟩ "HomeNet" "wrong"
      (by decide) (by decide),
    (ap_retry_invariants 3 (by decide)).2.2.2 _ (by decide)⟩

/-- C8: a `/save` submission whose network name URL-decodes to the
empty string is answered with the 400 client-error page and nothing
else happens: the state (counter and stored record) is returned
unchanged and `connect_sta` is not invoked. -/
theorem save_empty_ssid_bad_request (maxRetries : Nat) (st : ApState)
    (rawSsid rawPass : String) (connectResult : Bool)
    (h : url_decode rawSsid = .ok "") :
    handleSaveRequest maxRetries st rawSsid rawPass connectResult =
      .ok (st, .badRequest, false) := by
  rw [handleSaveRequest]
  rw [show url_decode rawPass = .ok (claimUrlDecode rawPass) from ?_]
  · rw [h]
    show Except.ok
        (handleSave maxRetries st "" (claimUrlDecode rawPass) connectResult)
      = Except.ok (st, .badRequest, false)
    rw [handleSave_empty]
  · rw [url_decode, claimUrlDecode]
    by_cases hp : rawPass.isEmpty
    · rw [if_pos hp, if_pos hp]
    · rw [if_neg hp, if_neg hp,
        urlLoop_eq_claim (plusToSpace rawPass.data).length _ (le_refl _)]
      rfl

/-- Witness for C8: an empty submitted `ssid` parameter. -/
theorem save_empty_ssid_bad_request_witness :
    handleSaveRequest 3 ⟨1, some ("HomeNet", "secret123")⟩ "" "p%41ss" true =
      .ok (⟨1, some ("HomeNet", "secret123")⟩, .badRequest, false) :=
  save_empty_ssid_bad_request 3 ⟨1, some ("HomeNet", "secret123")⟩ "" "p%41ss"
    true rfl

lemma insertDesc_perm (x : String × Int) :
    ∀ l, (insertDesc x l).Perm (x :: l) := by
  intro l
  induction l with
  | nil => simp [insertDesc]
  | cons y ys ih =>
      rw [insertDesc]
      by_cases hcmp : x.2 < y.2
      · rw [if_pos hcmp]
        exact (ih.cons y).trans (List.Perm.swap x y ys)
      · rw [if_neg hcmp]

lemma sortDesc_perm : ∀ l, (sortDesc l).Perm l := by
  intro l
  induction l with
  | nil => rw [sortDesc]
  | cons x xs ih =>
      rw [sortDesc]
      exact (insertDesc_perm x (sortDesc xs)).trans (ih.cons x)

lemma insertDesc_sorted (x : String × Int) :
    ∀ l, List.Pairwise (fun a b => b.2 ≤ a.2) l →
      List.Pairwise (fun a b => b.2 ≤ a.2) (insertDesc x l) := by
  intro l
  induction l with
  | nil => intro _; simp [insertDesc]
  | cons y ys ih =>
      intro hp
      rw [List.pairwise_cons] at hp
      obtain ⟨hy, hys⟩ := hp
      rw [insertDesc]
      by_cases hcmp : x.2 < y.2
      · rw [if_pos hcmp, List.pairwise_cons]
        refine ⟨?_, ih hys⟩
        intro z hz
        rcases List.mem_cons.mp ((insertDesc_perm x ys).mem_iff.mp hz)
          with rfl | hzys
        · omega
        · exact hy z hzys
      · rw [if_neg hcmp, List.pairwise_cons]
        refine ⟨?_, List.pairwise_cons.mpr ⟨hy, hys⟩⟩
        intro z hz
        rcases List.mem_cons.mp hz with rfl | hzys
        · omega
        · have := hy z hzys
          omega

lemma sortDesc_sorted :
    ∀ l, List.Pairwise (fun a b => b.2 ≤ a.2) (sortDesc l) := by
  intro l
  induction l with
  | nil => rw [sortDesc]; exact List.Pairwise.nil
  | cons x xs ih =>
      rw [sortDesc]
      exact insertDesc_sorted x (sortDesc xs) ih

lemma dedupScan_names (l : List (Option String × Int)) :
    ∀ seen, ((dedupScan l seen).map Prod.fst).Nodup ∧
      ∀ s ∈ (dedupScan l seen).map Prod.fst, s ∉ seen := by
  induction l with
  | nil => intro seen; simp [dedupScan]
  | cons n rest ih =>
      intro seen
      rw [dedupScan]
      by_cases hc : scanSsid n.1 ≠ "" ∧ scanSsid n.1 ∉ seen
      · rw [if_pos hc]
        obtain ⟨hnd, hnotin⟩ := ih (scanSsid n.1 :: seen)
        constructor
        · rw [List.map_cons, List.nodup_cons]
          exact ⟨fun hmem => (hnotin _ hmem) (List.mem_cons_self _ _), hnd⟩
        · intro s hs hseen
          rw [List.map_cons, List.mem_cons] at hs
          rcases hs with rfl | hs
          · exact hc.2 hseen
          · exact hnotin s hs (List.mem_cons_of_mem _ hseen)
      · rw [if_neg hc]
        exact ih seen

/-- C9: for every raw scan input list, `scan_networks` returns pairs
sorted by descending signal strength in which each network name
appears at most once. -/
theorem scan_networks_sorted_dedup (nets : List (Option String × Int)) :
    List.Pairwise (fun a b => b.2 ≤ a.2) (scan_networks nets) ∧
    ((scan_networks nets).map Prod.fst).Nodup := by
  constructor
  · exact sortDesc_sorted (dedupScan nets [])
  · have hperm := (sortDesc_perm (dedupScan nets [])).map Prod.fst
    exact hperm.symm.nodup (dedupScan_names nets []).1

end Heating
